import Mathlib

/-!
Verification of the Extension Lowering Unit
(`google::protobuf::compiler::j2objc::ExtensionGenerator`,
declared in `src/google/protobuf/compiler/j2objc/j2objc_extension.h`).

The repository ships only the class declaration: the six operations
`CollectSourceImports`, `GenerateMembersHeader`, `GenerateSourceDefinition`,
`GenerateFieldData`, `GenerateSourceInitializer` and
`GenerateRegistrationCode` are declared but their bodies live outside the
available sources.  Each operation below is therefore modelled from the
design specification of the component, faithful to its words, and the
stated properties are settled against that model.
-/

namespace J2ObjC

/-- Value-type category of a field descriptor: the primitive scalar
categories (all integer widths and signednesses, both float precisions,
bool, string, bytes) plus message and enum references.  A message or enum
reference carries the referenced type's name and the identity of the
module/scope that defines it. -/
inductive TypeCategory where
  | tyInt32
  | tyInt64
  | tyUint32
  | tyUint64
  | tySint32
  | tySint64
  | tyFixed32
  | tyFixed64
  | tySfixed32
  | tySfixed64
  | tyFloat
  | tyDouble
  | tyBool
  | tyString
  | tyBytes
  | tyMessage (typeName : String) (definingModule : String)
  | tyEnum (typeName : String) (definingModule : String)
  deriving DecidableEq

/-- Cardinality of a field: singular or repeated. -/
inductive Cardinality where
  | singular
  | repeated
  deriving DecidableEq

/-- Exact scientific-decimal representation of a floating default value:
the value `mantissa * 10 ^ exp10`.  Every binary floating-point value is a
dyadic rational and hence has an exact finite decimal representation, so
this carries a floating default with no precision loss. -/
structure SciFloat where
  mantissa : Int
  exp10 : Int
  deriving DecidableEq

/-- The exact rational value denoted by a `SciFloat`. -/
def SciFloat.val (f : SciFloat) : ℚ :=
  (f.mantissa : ℚ) * (10 : ℚ) ^ f.exp10

/-- Declared default value of a field descriptor, if any. -/
inductive DefaultValue where
  | noDefault
  | intDefault (i : Int)
  | floatDefault (f : SciFloat)
  | boolDefault (b : Bool)
  | stringDefault (s : String)
  | enumDefault (n : String)
  deriving DecidableEq

/-- Modelled from the spec: the read-only Field Descriptor handle backing
an Extension Lowering Unit — declared name, numeric field tag, value-type
category, cardinality, default value, declaring scope, and the identity of
the message the extension extends. -/
structure FieldDescriptor where
  name : String
  tag : Nat
  typeCat : TypeCategory
  cardinality : Cardinality
  defaultValue : DefaultValue
  declaringScope : String
  extendedMessage : String
  deriving DecidableEq

/-- Whether the category is a primitive scalar (not a message or enum
reference). -/
def TypeCategory.isPrimitiveScalar : TypeCategory → Bool
  | .tyMessage _ _ => false
  | .tyEnum _ _ => false
  | _ => true

/-- Whether the category is one of the integer categories. -/
def TypeCategory.isIntegerCategory : TypeCategory → Bool
  | .tyInt32 => true
  | .tyInt64 => true
  | .tyUint32 => true
  | .tyUint64 => true
  | .tySint32 => true
  | .tySint64 => true
  | .tyFixed32 => true
  | .tyFixed64 => true
  | .tySfixed32 => true
  | .tySfixed64 => true
  | _ => false

/-- Whether the category is a floating-point category. -/
def TypeCategory.isFloatCategory : TypeCategory → Bool
  | .tyFloat => true
  | .tyDouble => true
  | _ => false

/-- Whether the category is an enum reference. -/
def TypeCategory.isEnumCategory : TypeCategory → Bool
  | .tyEnum _ _ => true
  | _ => false

/-- The module that defines the referenced value type: `none` for
primitive scalars, the defining module for message and enum references. -/
def TypeCategory.referencedModule : TypeCategory → Option String
  | .tyMessage _ m => some m
  | .tyEnum _ m => some m
  | _ => none

/-- Ordered duplicate-free insertion into a sorted list, modelling the
insertion of one element into a `std::set<string>` (the import set is a
`std::set<string>*` in the declared interface): the element is placed at
its ordered position and collapses with an equal element already
present. -/
def setInsert (x : String) : List String → List String
  | [] => [x]
  | y :: ys =>
    if x < y then x :: y :: ys
    else if x = y then y :: ys
    else y :: setInsert x ys

/-- Modelled from the spec: `ExtensionGenerator::CollectSourceImports`
(body not in the available sources).  Inspects the descriptor's value
type and, for message/enum types, adds the identifier of the module that
defines the referenced type to the import set; a no-op for primitive
scalar types; never adds an import for the field's own declaring scope
(self-import avoidance). -/
def CollectSourceImports (d : FieldDescriptor) (imports : List String) : List String :=
  match d.typeCat.referencedModule with
  | none => imports
  | some m => if m = d.declaringScope then imports else setInsert m imports

/-- Folding `CollectSourceImports` over a sequence of descriptors:
the import set accumulated by a sequence of calls. -/
def collectAll (ds : List FieldDescriptor) (imports : List String) : List String :=
  ds.foldl (fun s d => CollectSourceImports d s) imports

/-! ### Numeric literal emission and re-parsing -/

/-- The character for a single decimal digit. -/
def digitChar (d : Nat) : Char := Char.ofNat (48 + d)

/-- Numeric value of a decimal digit character. -/
def charVal (c : Char) : Nat := c.toNat - 48

/-- Whether a character is a decimal digit. -/
def isDigitChar (c : Char) : Bool := 48 ≤ c.toNat && c.toNat ≤ 57

/-- Little-endian base-10 digits of `n`, computed with explicit fuel so
the definition is structurally recursive. -/
def digitsFuel : Nat → Nat → List Nat
  | 0, _ => []
  | _ + 1, 0 => []
  | fuel + 1, n + 1 => (n + 1) % 10 :: digitsFuel fuel ((n + 1) / 10)

/-- Little-endian base-10 digits of `n` (empty for `0`). -/
def natDigits (n : Nat) : List Nat := digitsFuel n n

/-- The number denoted by a little-endian base-10 digit list. -/
def digitsVal : List Nat → Nat
  | [] => 0
  | d :: ds => d + 10 * digitsVal ds

/-- Decimal character rendering of a natural number. -/
def natChars (n : Nat) : List Char :=
  if n = 0 then ['0'] else (natDigits n).reverse.map digitChar

/-- Decimal character rendering of an integer: an optional minus sign
followed by the decimal digits of the magnitude. -/
def intChars (i : Int) : List Char :=
  if i < 0 then '-' :: natChars i.natAbs else natChars i.natAbs

/-- The exact decimal literal emitted for an integer default value. -/
def intLiteral (i : Int) : String := ⟨intChars i⟩

/-- Character rendering of a floating default in exact scientific form:
mantissa, the exponent marker, exponent. -/
def sciChars (f : SciFloat) : List Char :=
  intChars f.mantissa ++ 'e' :: intChars f.exp10

/-- The exact literal emitted for a floating default value. -/
def floatLiteral (f : SciFloat) : String := ⟨sciChars f⟩

/-- Re-parse a decimal digit string to a natural number. -/
def parseNatChars (cs : List Char) : Option Nat :=
  if cs = [] then none
  else if cs.all isDigitChar then some (digitsVal ((cs.map charVal).reverse))
  else none

/-- Re-parse an optionally-signed decimal string to an integer. -/
def parseIntChars (cs : List Char) : Option Int :=
  if cs.head? = some '-' then (parseNatChars cs.tail).map (fun n => -(Int.ofNat n))
  else (parseNatChars cs).map (fun n => Int.ofNat n)

/-- Re-parse an integer literal. -/
def parseIntLit (s : String) : Option Int := parseIntChars s.data

/-- Re-parse a scientific floating literal into its mantissa and
exponent. -/
def parseSciChars (cs : List Char) : Option SciFloat :=
  match cs.dropWhile (fun c => c != 'e') with
  | 'e' :: es =>
    match parseIntChars (cs.takeWhile (fun c => c != 'e')), parseIntChars es with
    | some m, some e => some ⟨m, e⟩
    | _, _ => none
  | _ => none

/-- Re-parse a floating literal. -/
def parseFloatLit (s : String) : Option SciFloat := parseSciChars s.data

/-! ### Emitted artifacts -/

/-- Modelled from the spec: the identifier naming an extension is derived
as a pure function of the descriptor's declared name and declaring scope
alone, so header and source emissions independently produce matching
identifiers. -/
def extensionIdentifier (d : FieldDescriptor) : String :=
  d.declaringScope ++ "_" ++ d.name

/-- Target-language base type token for a value-type category. -/
def TypeCategory.baseTypeToken : TypeCategory → String
  | .tyInt32 => "int32_t"
  | .tyInt64 => "int64_t"
  | .tyUint32 => "uint32_t"
  | .tyUint64 => "uint64_t"
  | .tySint32 => "int32_t"
  | .tySint64 => "int64_t"
  | .tyFixed32 => "uint32_t"
  | .tyFixed64 => "uint64_t"
  | .tySfixed32 => "int32_t"
  | .tySfixed64 => "int64_t"
  | .tyFloat => "float"
  | .tyDouble => "double"
  | .tyBool => "bool"
  | .tyString => "NSString"
  | .tyBytes => "ByteArray"
  | .tyMessage n _ => n
  | .tyEnum n _ => n

/-- Metadata type tag recorded for a value-type category in the emitted
field-data record. -/
def TypeCategory.typeTag : TypeCategory → String
  | .tyInt32 => "INT32"
  | .tyInt64 => "INT64"
  | .tyUint32 => "UINT32"
  | .tyUint64 => "UINT64"
  | .tySint32 => "SINT32"
  | .tySint64 => "SINT64"
  | .tyFixed32 => "FIXED32"
  | .tyFixed64 => "FIXED64"
  | .tySfixed32 => "SFIXED32"
  | .tySfixed64 => "SFIXED64"
  | .tyFloat => "FLOAT"
  | .tyDouble => "DOUBLE"
  | .tyBool => "BOOL"
  | .tyString => "STRING"
  | .tyBytes => "BYTES"
  | .tyMessage _ _ => "MESSAGE"
  | .tyEnum _ _ => "ENUM"

/-- One publicly visible declaration emitted into the members header:
the identifier downstream code references, the base type token of the
value type, and the declared cardinality. -/
structure HeaderDecl where
  identifier : String
  baseType : String
  cardinality : Cardinality
  deriving DecidableEq

/-- The declared type text of a header declaration: the base type token
for a singular field, a collection-shaped type for a repeated field. -/
def declaredTypeText (h : HeaderDecl) : String :=
  match h.cardinality with
  | .singular => h.baseType
  | .repeated => "List<" ++ h.baseType ++ ">"

/-- One out-of-header definition emitted into the source: the identifier
it defines and the same typing information as the paired declaration. -/
structure SourceDef where
  identifier : String
  baseType : String
  cardinality : Cardinality
  deriving DecidableEq

/-- Modelled from the spec: `ExtensionGenerator::GenerateMembersHeader`
(body not in the available sources).  Emits exactly one publicly visible
declaration whose identifier is derived from the descriptor's name and
declaring scope and whose type matches the field's value type and
cardinality. -/
def GenerateMembersHeader (d : FieldDescriptor) : List HeaderDecl :=
  [⟨extensionIdentifier d, d.typeCat.baseTypeToken, d.cardinality⟩]

/-- Modelled from the spec: `ExtensionGenerator::GenerateSourceDefinition`
(body not in the available sources).  Emits the out-of-header definition
paired with the header declaration, using the identical identifier
derivation. -/
def GenerateSourceDefinition (d : FieldDescriptor) : List SourceDef :=
  [⟨extensionIdentifier d, d.typeCat.baseTypeToken, d.cardinality⟩]

/-- A quoted string literal. -/
def quotedLiteral (s : String) : String := "\"" ++ s ++ "\""

/-- The literal emitted for a boolean default. -/
def boolLiteral (b : Bool) : String := if b then "true" else "false"

/-- The reflection/runtime-metadata record emitted for one field: type
tag, field number, cardinality, and the encoding of the declared default
value (if any). -/
structure FieldData where
  fieldName : String
  tag : Nat
  typeTag : String
  cardinality : Cardinality
  defaultLiteral : Option String
  deriving DecidableEq

/-- Default-value encoding for the field-data record, branching on the
value-type category, the cardinality, and the declared default.
`some lit` is the emitted encoding; `none` is an unsupported
type/cardinality/default combination, on which the design calls for a
fatal/unreachable assertion rather than a recoverable error. -/
def defaultLiteralFor : TypeCategory → Cardinality → DefaultValue → Option (Option String)
  | _, _, .noDefault => some none
  | _, .repeated, _ => none
  | t, .singular, .intDefault i =>
    if t.isIntegerCategory then some (some (intLiteral i)) else none
  | t, .singular, .floatDefault f =>
    if t.isFloatCategory then some (some (floatLiteral f)) else none
  | .tyBool, .singular, .boolDefault b => some (some (boolLiteral b))
  | _, .singular, .boolDefault _ => none
  | .tyString, .singular, .stringDefault s => some (some (quotedLiteral s))
  | .tyBytes, .singular, .stringDefault s => some (some (quotedLiteral s))
  | _, .singular, .stringDefault _ => none
  | .tyEnum _ _, .singular, .enumDefault n => some (some n)
  | _, .singular, .enumDefault _ => none

/-- The input contract on a descriptor: the declared default (when
present) is compatible with the field's value-type category, and only a
singular field carries a declared default.  A descriptor violating this
is a contract violation by the upstream schema pipeline. -/
def wellFormed (d : FieldDescriptor) : Bool :=
  match d.defaultValue with
  | .noDefault => true
  | .intDefault _ => decide (d.cardinality = .singular) && d.typeCat.isIntegerCategory
  | .floatDefault _ => decide (d.cardinality = .singular) && d.typeCat.isFloatCategory
  | .boolDefault _ => decide (d.cardinality = .singular) && decide (d.typeCat = .tyBool)
  | .stringDefault _ =>
    decide (d.cardinality = .singular)
      && (decide (d.typeCat = .tyString) || decide (d.typeCat = .tyBytes))
  | .enumDefault _ => decide (d.cardinality = .singular) && d.typeCat.isEnumCategory

/-- Modelled from the spec: `ExtensionGenerator::GenerateFieldData`
(body not in the available sources).  Emits the metadata record for the
field — type tag, field number, cardinality, default-value encoding —
branching on the scalar-type category and the presence of a declared
default; `none` models the fatal/unreachable assertion hit on an
unsupported type/cardinality/default combination. -/
def GenerateFieldData (d : FieldDescriptor) : Option FieldData :=
  match defaultLiteralFor d.typeCat d.cardinality d.defaultValue with
  | none => none
  | some lit => some ⟨d.name, d.tag, d.typeCat.typeTag, d.cardinality, lit⟩

/-! ### Initialization and registration -/

/-- The identifier of the runtime descriptor object (the registry entry)
constructed for the extension at static-initialization time. -/
def entryName (d : FieldDescriptor) : String :=
  extensionIdentifier d ++ "_descriptor"

/-- One emitted initializer statement: constructs the runtime descriptor
object named `entry` from the emitted field-data record. -/
structure InitStmt where
  entry : String
  data : FieldData
  deriving DecidableEq

/-- One emitted registration statement: registers the already-initialized
registry entry `entry` with the global extension registry, keyed by the
extending message's identity and the field's tag number. -/
structure RegStmt where
  entry : String
  messageKey : String
  tagKey : Nat
  deriving DecidableEq

/-- Modelled from the spec: `ExtensionGenerator::GenerateSourceInitializer`
(body not in the available sources).  Emits the statement that constructs
the runtime descriptor object for this extension from the emitted
field-data record, to run once at static/module initialization time. -/
def GenerateSourceInitializer (d : FieldDescriptor) : List InitStmt :=
  match GenerateFieldData d with
  | some fd => [⟨entryName d, fd⟩]
  | none => []

/-- Modelled from the spec: `ExtensionGenerator::GenerateRegistrationCode`
(body not in the available sources).  Emits the statement that registers
the initialized extension descriptor with the global extension registry,
keyed by the extending message's identity and this field's tag number. -/
def GenerateRegistrationCode (d : FieldDescriptor) : List RegStmt :=
  [⟨entryName d, d.extendedMessage, d.tag⟩]

/-- A statement of the assembled generated program, as far as the
initialization/registration ordering discipline is concerned. -/
inductive RtStmt where
  | rtInit (entry : String) (data : FieldData)
  | rtReg (entry : String) (messageKey : String) (tagKey : Nat)
  deriving DecidableEq

/-- Runtime state of the extension registry: the initialized descriptor
objects, and the registered extensions keyed by (extending message
identity, field tag). -/
structure Registry where
  entries : List (String × FieldData)
  registered : List ((String × Nat) × String)
  deriving DecidableEq

/-- Execute one statement: initialization constructs a registry entry;
registration looks the entry up and fails (`none`) if it references an
entry that was never initialized. -/
def execStmt (st : Registry) : RtStmt → Option Registry
  | .rtInit e fd => some ⟨(e, fd) :: st.entries, st.registered⟩
  | .rtReg e k t =>
    match st.entries.lookup e with
    | some _ => some ⟨st.entries, ((k, t), e) :: st.registered⟩
    | none => none

/-- Execute an assembled statement sequence in order. -/
def execProg : List RtStmt → Registry → Option Registry
  | [], st => some st
  | s :: rest, st => (execStmt st s).bind (execProg rest)

/-- One unit's initializer output assembled before its registration
output, as the containing generator sequences them in the final
program. -/
def assembledProgram (d : FieldDescriptor) : List RtStmt :=
  (GenerateSourceInitializer d).map (fun i => .rtInit i.entry i.data)
    ++ (GenerateRegistrationCode d).map (fun r => .rtReg r.entry r.messageKey r.tagKey)

/-! ### The operation-level execution model -/

/-- An emitted artifact appended to the caller-supplied output sink. -/
inductive Artifact where
  | headerArt (h : HeaderDecl)
  | sourceArt (s : SourceDef)
  | dataArt (fd : FieldData)
  | initArt (s : InitStmt)
  | regArt (s : RegStmt)
  deriving DecidableEq

/-- The caller-visible state an operation may touch: the append-only
output sink and the caller-owned import set. -/
structure GenState where
  sink : List Artifact
  imports : List String
  deriving DecidableEq

/-- The six operations of the Extension Lowering Unit. -/
inductive Op where
  | opCollectImports
  | opMembersHeader
  | opSourceDefinition
  | opFieldData
  | opSourceInitializer
  | opRegistrationCode
  deriving DecidableEq

/-- Invoke one operation of the unit on the caller-supplied state: each
operation reads only the descriptor, appends its output to the sink (or
adds to the import set), and `none` models the fatal abort on a contract
violation inside `GenerateFieldData`. -/
def runOp (op : Op) (d : FieldDescriptor) (s : GenState) : Option GenState :=
  match op with
  | .opCollectImports => some ⟨s.sink, CollectSourceImports d s.imports⟩
  | .opMembersHeader =>
    some ⟨s.sink ++ (GenerateMembersHeader d).map Artifact.headerArt, s.imports⟩
  | .opSourceDefinition =>
    some ⟨s.sink ++ (GenerateSourceDefinition d).map Artifact.sourceArt, s.imports⟩
  | .opFieldData =>
    (GenerateFieldData d).map (fun fd => ⟨s.sink ++ [Artifact.dataArt fd], s.imports⟩)
  | .opSourceInitializer =>
    some ⟨s.sink ++ (GenerateSourceInitializer d).map Artifact.initArt, s.imports⟩
  | .opRegistrationCode =>
    some ⟨s.sink ++ (GenerateRegistrationCode d).map Artifact.regArt, s.imports⟩

/-- Invoke a sequence of operations in order. -/
def runOps (ops : List Op) (d : FieldDescriptor) (s : GenState) : Option GenState :=
  match ops with
  | [] => some s
  | op :: rest => (runOp op d s).bind (runOps rest d)

/-- The text an invocation appends to the sink, extracted as the part of
the resulting sink beyond the caller's original contents. -/
def appendedSink (op : Op) (d : FieldDescriptor) (s : GenState) : Option (List Artifact) :=
  (runOp op d s).map (fun t => t.sink.drop s.sink.length)

/-- The import-set contribution of one operation, as a pure function of
the operation and the descriptor alone. -/
def contributedImports (op : Op) (d : FieldDescriptor) : List String :=
  match op with
  | .opCollectImports => CollectSourceImports d []
  | _ => []

/-! ### Concrete descriptors used as evaluation inputs -/

/-- A message-typed extension field whose referenced type lives in a
foreign module. -/
def dMsg : FieldDescriptor :=
  ⟨"bar", 5, .tyMessage "Baz" "BazModule", .singular, .noDefault, "Scope", "Foo"⟩

/-- A second message-typed extension field referencing another foreign
module. -/
def dMsg2 : FieldDescriptor :=
  ⟨"qux", 6, .tyMessage "Alpha" "AlphaModule", .singular, .noDefault, "Scope", "Foo"⟩

/-- A message-typed extension field whose referenced type is declared in
the extension's own declaring scope. -/
def dSelf : FieldDescriptor :=
  ⟨"bar", 5, .tyMessage "Baz" "Scope", .singular, .noDefault, "Scope", "Foo"⟩

/-- The singular int32 extension field of the end-to-end scenario. -/
def dScalar : FieldDescriptor :=
  ⟨"bar", 5, .tyInt32, .singular, .noDefault, "Scope", "Foo"⟩

/-- A repeated field of the same scalar type as `dScalar`. -/
def dRep : FieldDescriptor :=
  ⟨"bars", 7, .tyInt32, .repeated, .noDefault, "Scope", "Foo"⟩

/-- A singular int32 field with declared integer default `-1`. -/
def dIntDefault : FieldDescriptor :=
  ⟨"bar", 5, .tyInt32, .singular, .intDefault (-1), "Scope", "Foo"⟩

/-- A singular double field with declared floating default `3.5`
(mantissa 35, exponent -1). -/
def dFloatDefault : FieldDescriptor :=
  ⟨"bar", 5, .tyDouble, .singular, .floatDefault ⟨35, -1⟩, "Scope", "Foo"⟩

/-- An ill-formed descriptor: a string field carrying an integer
default — an unsupported type/default combination. -/
def dBad : FieldDescriptor :=
  ⟨"bar", 5, .tyString, .singular, .intDefault 3, "Scope", "Foo"⟩

/-! ### Properties of ordered insertion -/

theorem mem_setInsert (x a : String) (l : List String) :
    a ∈ setInsert x l ↔ a = x ∨ a ∈ l := by
  induction l with
  | nil => simp [setInsert]
  | cons y ys ih =>
    simp only [setInsert]
    split_ifs with h1 h2
    · simp [List.mem_cons]
    · subst h2
      simp [List.mem_cons]
    · simp [List.mem_cons, ih]
      tauto

theorem setInsert_sorted (x : String) {l : List String} (h : l.Sorted (· < ·)) :
    (setInsert x l).Sorted (· < ·) := by
  induction l with
  | nil => simp [setInsert]
  | cons y ys ih =>
    rw [List.sorted_cons] at h
    obtain ⟨hy, hys⟩ := h
    simp only [setInsert]
    split_ifs with h1 h2
    · rw [List.sorted_cons]
      refine ⟨?_, ?_⟩
      · intro b hb
        rcases List.mem_cons.mp hb with rfl | hb
        · exact h1
        · exact lt_trans h1 (hy b hb)
      · rw [List.sorted_cons]
        exact ⟨hy, hys⟩
    · rw [List.sorted_cons]
      exact ⟨hy, hys⟩
    · rw [List.sorted_cons]
      refine ⟨?_, ih hys⟩
      intro b hb
      rcases (mem_setInsert x b ys).mp hb with rfl | hb
      · exact lt_of_le_of_ne (not_lt.mp h1) (Ne.symm h2)
      · exact hy b hb

theorem setInsert_idem (x : String) (l : List String) :
    setInsert x (setInsert x l) = setInsert x l := by
  induction l with
  | nil => simp [setInsert]
  | cons y ys ih =>
    simp only [setInsert]
    split_ifs with h1 h2
    · simp [setInsert, lt_irrefl]
    · subst h2
      simp [setInsert, h1]
    · simp [setInsert, h1, h2, ih]

theorem sorted_eq_of_mem_iff :
    ∀ {l₁ l₂ : List String}, l₁.Sorted (· < ·) → l₂.Sorted (· < ·) →
      (∀ x, x ∈ l₁ ↔ x ∈ l₂) → l₁ = l₂ := by
  intro l₁
  induction l₁ with
  | nil =>
    intro l₂ _ _ h
    cases l₂ with
    | nil => rfl
    | cons b t => exact absurd ((h b).mpr (List.mem_cons_self b t)) (List.not_mem_nil b)
  | cons a t₁ ih =>
    intro l₂ h₁ h₂ h
    cases l₂ with
    | nil => exact absurd ((h a).mp (List.mem_cons_self a t₁)) (List.not_mem_nil a)
    | cons b t₂ =>
      have hab : a = b := by
        have ha2 : a ∈ b :: t₂ := (h a).mp (List.mem_cons_self a t₁)
        have hb1 : b ∈ a :: t₁ := (h b).mpr (List.mem_cons_self b t₂)
        rcases List.mem_cons.mp ha2 with h1 | h1
        · exact h1
        · rcases List.mem_cons.mp hb1 with h2 | h2
          · exact h2.symm
          · exact absurd ((List.sorted_cons.mp h₁).1 b h2)
              (lt_asymm ((List.sorted_cons.mp h₂).1 a h1))
      subst hab
      have ht : t₁ = t₂ := by
        apply ih (List.sorted_cons.mp h₁).2 (List.sorted_cons.mp h₂).2
        intro x
        constructor
        · intro hx
          have hx2 : x ∈ a :: t₂ := (h x).mp (List.mem_cons_of_mem a hx)
          rcases List.mem_cons.mp hx2 with rfl | hx2
          · exact absurd ((List.sorted_cons.mp h₁).1 x hx) (lt_irrefl x)
          · exact hx2
        · intro hx
          have hx1 : x ∈ a :: t₁ := (h x).mpr (List.mem_cons_of_mem a hx)
          rcases List.mem_cons.mp hx1 with rfl | hx1
          · exact absurd ((List.sorted_cons.mp h₂).1 x hx) (lt_irrefl x)
          · exact hx1
      rw [ht]

theorem setInsert_comm (x y : String) {l : List String} (h : l.Sorted (· < ·)) :
    setInsert x (setInsert y l) = setInsert y (setInsert x l) := by
  apply sorted_eq_of_mem_iff (setInsert_sorted x (setInsert_sorted y h))
    (setInsert_sorted y (setInsert_sorted x h))
  intro a
  simp [mem_setInsert]
  tauto

/-! ### Properties of import collection -/

theorem collect_eq_id_or_insert (d : FieldDescriptor) :
    (∀ S, CollectSourceImports d S = S) ∨
      ∃ m, ∀ S, CollectSourceImports d S = setInsert m S := by
  rcases hm : d.typeCat.referencedModule with _ | m
  · left
    intro S
    simp [CollectSourceImports, hm]
  · by_cases hs : m = d.declaringScope
    · left
      intro S
      simp [CollectSourceImports, hm, hs]
    · right
      exact ⟨m, fun S => by simp [CollectSourceImports, hm, hs]⟩

theorem collect_sorted (d : FieldDescriptor) {S : List String}
    (h : S.Sorted (· < ·)) : (CollectSourceImports d S).Sorted (· < ·) := by
  rcases collect_eq_id_or_insert d with hid | ⟨m, hins⟩
  · rw [hid]
    exact h
  · rw [hins]
    exact setInsert_sorted m h

theorem collect_idem (d : FieldDescriptor) (S : List String) :
    CollectSourceImports d (CollectSourceImports d S) = CollectSourceImports d S := by
  rcases collect_eq_id_or_insert d with hid | ⟨m, hins⟩
  · rw [hid, hid]
  · rw [hins, hins, setInsert_idem]

theorem collect_comm (d₁ d₂ : FieldDescriptor) {S : List String}
    (h : S.Sorted (· < ·)) :
    CollectSourceImports d₁ (CollectSourceImports d₂ S)
      = CollectSourceImports d₂ (CollectSourceImports d₁ S) := by
  rcases collect_eq_id_or_insert d₁ with hid₁ | ⟨m₁, hins₁⟩
  · rw [hid₁, hid₁]
  · rcases collect_eq_id_or_insert d₂ with hid₂ | ⟨m₂, hins₂⟩
    · rw [hid₂, hid₂]
    · rw [hins₁, hins₂, hins₁, hins₂, setInsert_comm m₁ m₂ h]

theorem mem_collect (d : FieldDescriptor) (S : List String) (a : String) :
    a ∈ CollectSourceImports d S ↔ a ∈ S ∨ a ∈ CollectSourceImports d [] := by
  rcases collect_eq_id_or_insert d with hid | ⟨m, hins⟩
  · rw [hid, hid]
    simp
  · rw [hins, hins]
    simp [mem_setInsert, setInsert]
    tauto

theorem collectAll_cons (d : FieldDescriptor) (ds : List FieldDescriptor)
    (S : List String) :
    collectAll (d :: ds) S = collectAll ds (CollectSourceImports d S) := rfl

theorem collectAll_sorted (ds : List FieldDescriptor) :
    ∀ {S : List String}, S.Sorted (· < ·) → (collectAll ds S).Sorted (· < ·) := by
  induction ds with
  | nil =>
    intro S h
    exact h
  | cons d ds ih =>
    intro S h
    rw [collectAll_cons]
    exact ih (collect_sorted d h)

theorem collectAll_perm {ds ds' : List FieldDescriptor} (p : ds.Perm ds') :
    ∀ {S : List String}, S.Sorted (· < ·) → collectAll ds S = collectAll ds' S := by
  induction p with
  | nil =>
    intro S _
    rfl
  | cons d p ih =>
    intro S h
    rw [collectAll_cons, collectAll_cons]
    exact ih (collect_sorted d h)
  | swap d₁ d₂ l =>
    intro S h
    rw [collectAll_cons, collectAll_cons, collectAll_cons, collectAll_cons,
      collect_comm d₂ d₁ h]
  | trans p₁ p₂ ih₁ ih₂ =>
    intro S h
    rw [ih₁ h, ih₂ h]

/-! ### Claims about import collection -/

/-- Claim C2: `CollectSourceImports` is idempotent — for every descriptor
and every import set `S`, calling it `N` times (`N ≥ 1`) on `S` yields
the same final set as calling it once. -/
theorem c2_collect_source_imports_idempotent (d : FieldDescriptor)
    (S : List String) (N : Nat) (hN : 1 ≤ N) :
    (fun T => CollectSourceImports d T)^[N] S = CollectSourceImports d S := by
  induction N with
  | zero => omega
  | succ n ih =>
    rcases Nat.eq_zero_or_pos n with rfl | hn
    · rfl
    · rw [Function.iterate_succ_apply', ih hn]
      exact collect_idem d S

theorem c2_collect_source_imports_idempotent_witness :
    1 ≤ 3 ∧ (fun T => CollectSourceImports dMsg T)^[3] ["A"]
      = CollectSourceImports dMsg ["A"] :=
  ⟨by decide, c2_collect_source_imports_idempotent dMsg ["A"] 3 (by decide)⟩

/-- Claim C3: for every descriptor whose referenced value type is declared
in the same scope as the extension field itself, `CollectSourceImports`
leaves the import set unchanged — no self-import is added. -/
theorem c3_no_self_import (d : FieldDescriptor) (S : List String)
    (h : d.typeCat.referencedModule = some d.declaringScope) :
    CollectSourceImports d S = S := by
  simp [CollectSourceImports, h]

theorem c3_no_self_import_witness :
    dSelf.typeCat.referencedModule = some dSelf.declaringScope ∧
      CollectSourceImports dSelf ["x"] = ["x"] :=
  ⟨rfl, c3_no_self_import dSelf ["x"] rfl⟩

/-- Claim C4: `CollectSourceImports` only grows the import set — every
element of the initial set is still present afterwards — and for a
descriptor whose value type is a primitive scalar the set is left exactly
unchanged. -/
theorem c4_collect_source_imports_grow_only (d : FieldDescriptor)
    (S : List String) :
    (∀ x, x ∈ S → x ∈ CollectSourceImports d S) ∧
      (d.typeCat.isPrimitiveScalar = true → CollectSourceImports d S = S) := by
  constructor
  · intro x hx
    exact (mem_collect d S x).mpr (Or.inl hx)
  · intro h
    have hm : d.typeCat.referencedModule = none := by
      cases hc : d.typeCat <;>
        simp_all [TypeCategory.isPrimitiveScalar, TypeCategory.referencedModule]
    simp [CollectSourceImports, hm]

theorem c4_collect_source_imports_grow_only_witness :
    ("x" ∈ CollectSourceImports dScalar ["x"]) ∧
      dScalar.typeCat.isPrimitiveScalar = true ∧
      CollectSourceImports dScalar ["x"] = ["x"] :=
  ⟨(c4_collect_source_imports_grow_only dScalar ["x"]).1 "x" (by simp),
    rfl, (c4_collect_source_imports_grow_only dScalar ["x"]).2 rfl⟩

/-- Claim C10: the import-collection interface has `std::set<string>`
semantics — after any sequence of `CollectSourceImports` calls the
collected imports are duplicate-free and enumerate in a deterministic
lexicographically sorted order independent of the order in which the
calls were made. -/
theorem c10_import_set_sorted_nodup_order_independent
    (ds ds' : List FieldDescriptor) (p : ds.Perm ds') :
    (collectAll ds []).Sorted (· < ·) ∧ (collectAll ds []).Nodup ∧
      collectAll ds [] = collectAll ds' [] := by
  have hs : (collectAll ds []).Sorted (· < ·) := collectAll_sorted ds (by simp)
  exact ⟨hs, hs.nodup, collectAll_perm p (by simp)⟩

theorem c10_import_set_sorted_nodup_order_independent_witness :
    ([dMsg2, dMsg].Perm [dMsg, dMsg2]) ∧
      (collectAll [dMsg2, dMsg] []).Sorted (· < ·) ∧
      (collectAll [dMsg2, dMsg] []).Nodup ∧
      collectAll [dMsg2, dMsg] [] = collectAll [dMsg, dMsg2] [] :=
  ⟨List.Perm.swap dMsg dMsg2 [],
    c10_import_set_sorted_nodup_order_independent [dMsg2, dMsg] [dMsg, dMsg2]
      (List.Perm.swap dMsg dMsg2 [])⟩

/-! ### Round-trip properties of the numeric literal forms -/

theorem digitsFuel_lt : ∀ fuel n d, d ∈ digitsFuel fuel n → d < 10 := by
  intro fuel
  induction fuel with
  | zero =>
    intro n d h
    simp [digitsFuel] at h
  | succ m ih =>
    intro n d h
    cases n with
    | zero => simp [digitsFuel] at h
    | succ k =>
      rcases List.mem_cons.mp h with rfl | h
      · exact Nat.mod_lt _ (by norm_num)
      · exact ih _ d h

theorem digitsVal_digitsFuel : ∀ fuel n, n ≤ fuel → digitsVal (digitsFuel fuel n) = n := by
  intro fuel
  induction fuel with
  | zero =>
    intro n h
    interval_cases n
    simp [digitsFuel, digitsVal]
  | succ m ih =>
    intro n h
    cases n with
    | zero => simp [digitsFuel, digitsVal]
    | succ k =>
      have hdiv : (k + 1) / 10 ≤ m := by
        have := Nat.div_lt_self (Nat.succ_pos k) (by norm_num : 1 < 10)
        omega
      simp only [digitsFuel, digitsVal, ih _ hdiv]
      exact Nat.mod_add_div (k + 1) 10

theorem charVal_digitChar (d : Nat) (h : d < 10) : charVal (digitChar d) = d := by
  interval_cases d <;> decide

theorem isDigitChar_digitChar (d : Nat) (h : d < 10) :
    isDigitChar (digitChar d) = true := by
  interval_cases d <;> decide

theorem natChars_all_digit (n : Nat) : ∀ c ∈ natChars n, isDigitChar c = true := by
  intro c hc
  unfold natChars at hc
  split_ifs at hc with h
  · simp at hc
    subst hc
    decide
  · rcases List.mem_map.mp hc with ⟨d, hd, rfl⟩
    exact isDigitChar_digitChar d (digitsFuel_lt n n d (List.mem_reverse.mp hd))

theorem natChars_ne_nil (n : Nat) : natChars n ≠ [] := by
  unfold natChars
  split_ifs with h
  · simp
  · intro hc
    rcases n with _ | k
    · exact h rfl
    · simp only [natDigits, digitsFuel] at hc
      simp at hc

theorem parseNatChars_natChars (n : Nat) : parseNatChars (natChars n) = some n := by
  unfold parseNatChars
  rw [if_neg (natChars_ne_nil n)]
  rw [if_pos (List.all_eq_true.mpr (fun c hc => natChars_all_digit n c hc))]
  congr 1
  by_cases h : n = 0
  · subst h
    decide
  · have h1 : natChars n = (natDigits n).reverse.map digitChar := if_neg h
    rw [h1, List.map_map]
    have h2 : (natDigits n).reverse.map (charVal ∘ digitChar) = (natDigits n).reverse := by
      have := List.map_congr_left (l := (natDigits n).reverse)
        (f := charVal ∘ digitChar) (g := id)
        (fun d hd => charVal_digitChar d (digitsFuel_lt n n d (List.mem_reverse.mp hd)))
      rw [this, List.map_id]
    rw [h2, List.reverse_reverse]
    exact digitsVal_digitsFuel n n le_rfl

theorem digit_not_minus (c : Char) (h : isDigitChar c = true) : c ≠ '-' := by
  intro hc
  subst hc
  simp [isDigitChar] at h

theorem parseIntChars_intChars (i : Int) : parseIntChars (intChars i) = some i := by
  by_cases hi : i < 0
  · have h1 : intChars i = '-' :: natChars i.natAbs := if_pos hi
    rw [h1]
    unfold parseIntChars
    rw [if_pos (by simp)]
    simp only [List.tail_cons, parseNatChars_natChars, Option.map_some', Option.some.injEq,
      Int.ofNat_eq_coe]
    omega
  · have h1 : intChars i = natChars i.natAbs := if_neg hi
    rw [h1]
    unfold parseIntChars
    rw [if_neg ?hneg]
    case hneg =>
      intro hc
      have hex : ∃ c t, natChars i.natAbs = c :: t := by
        cases he : natChars i.natAbs with
        | nil => exact absurd he (natChars_ne_nil _)
        | cons a t => exact ⟨a, t, rfl⟩
      obtain ⟨c, t, he⟩ := hex
      rw [he] at hc
      simp only [List.head?_cons, Option.some.injEq] at hc
      have hcm : c ∈ natChars i.natAbs := by
        rw [he]
        exact List.mem_cons_self c t
      exact digit_not_minus c (natChars_all_digit _ c hcm) hc
    rw [parseNatChars_natChars]
    simp only [Option.map_some', Option.some.injEq, Int.ofNat_eq_coe]
    omega

theorem parseIntLit_intLiteral (i : Int) : parseIntLit (intLiteral i) = some i :=
  parseIntChars_intChars i

theorem takeWhile_append_marker (r : List Char) :
    ∀ l : List Char, (∀ c ∈ l, (c != 'e') = true) →
      (l ++ 'e' :: r).takeWhile (fun c => c != 'e') = l ∧
      (l ++ 'e' :: r).dropWhile (fun c => c != 'e') = 'e' :: r := by
  intro l
  induction l with
  | nil =>
    intro _
    constructor
    · simp [List.takeWhile_cons]
    · simp [List.dropWhile_cons]
  | cons a l ih =>
    intro hl
    have ha : (a != 'e') = true := hl a (List.mem_cons_self a l)
    have ih' := ih (fun c hc => hl c (List.mem_cons_of_mem a hc))
    constructor
    · simp only [List.cons_append, List.takeWhile_cons, ha, if_true]
      rw [ih'.1]
    · simp only [List.cons_append, List.dropWhile_cons, ha, if_true]
      exact ih'.2

theorem digit_ne_e (c : Char) (h : isDigitChar c = true) : (c != 'e') = true := by
  by_cases hc : c = 'e'
  · subst hc
    simp [isDigitChar] at h
  · simp [bne_iff_ne, hc]

theorem intChars_ne_e (i : Int) : ∀ c ∈ intChars i, (c != 'e') = true := by
  intro c hc
  unfold intChars at hc
  split_ifs at hc with h
  · rcases List.mem_cons.mp hc with rfl | hc
    · decide
    · exact digit_ne_e c (natChars_all_digit _ c hc)
  · exact digit_ne_e c (natChars_all_digit _ c hc)

theorem parseSciChars_sciChars (f : SciFloat) : parseSciChars (sciChars f) = some f := by
  have h := takeWhile_append_marker (intChars f.exp10) (intChars f.mantissa)
    (intChars_ne_e f.mantissa)
  unfold parseSciChars sciChars
  rw [h.1, h.2]
  simp [parseIntChars_intChars]

theorem parseFloatLit_floatLiteral (f : SciFloat) :
    parseFloatLit (floatLiteral f) = some f :=
  parseSciChars_sciChars f

/-! ### Claim C5: default-value fidelity -/

/-- Claim C5: `GenerateFieldData` emits declared default values with
exact fidelity — for an integer default the emitted literal re-parses to
exactly that integer (in particular `-1` stays `-1`, never an unsigned or
overflowed form), and for a floating default the emitted literal
re-parses to exactly the declared value with no precision loss. -/
theorem c5_default_value_fidelity (d : FieldDescriptor) (fd : FieldData)
    (h : GenerateFieldData d = some fd) :
    (∀ i, d.defaultValue = DefaultValue.intDefault i →
      fd.defaultLiteral = some (intLiteral i) ∧ parseIntLit (intLiteral i) = some i) ∧
    (∀ f, d.defaultValue = DefaultValue.floatDefault f →
      fd.defaultLiteral = some (floatLiteral f) ∧
      parseFloatLit (floatLiteral f) = some f ∧
      ∀ g, parseFloatLit (floatLiteral f) = some g → g.val = f.val) := by
  constructor
  · intro i hdv
    unfold GenerateFieldData at h
    rw [hdv] at h
    cases hc : d.cardinality <;> rw [hc] at h
    · by_cases hint : d.typeCat.isIntegerCategory = true
      · simp only [defaultLiteralFor, hint, if_true] at h
        obtain rfl := (Option.some.inj h).symm
        exact ⟨rfl, parseIntLit_intLiteral i⟩
      · simp only [defaultLiteralFor, hint] at h
        simp at h
    · simp [defaultLiteralFor] at h
  · intro f hdv
    unfold GenerateFieldData at h
    rw [hdv] at h
    cases hc : d.cardinality <;> rw [hc] at h
    · by_cases hfl : d.typeCat.isFloatCategory = true
      · simp only [defaultLiteralFor, hfl, if_true] at h
        obtain rfl := (Option.some.inj h).symm
        refine ⟨rfl, parseFloatLit_floatLiteral f, ?_⟩
        intro g hg
        rw [parseFloatLit_floatLiteral f] at hg
        rw [Option.some.inj hg]
      · simp only [defaultLiteralFor, hfl] at h
        simp at h
    · simp [defaultLiteralFor] at h

theorem c5_default_value_fidelity_witness :
    GenerateFieldData dIntDefault
        = some ⟨"bar", 5, "INT32", Cardinality.singular, some "-1"⟩ ∧
      parseIntLit "-1" = some (-1) ∧
      GenerateFieldData dFloatDefault
        = some ⟨"bar", 5, "DOUBLE", Cardinality.singular, some "35e-1"⟩ ∧
      parseFloatLit "35e-1" = some ⟨35, -1⟩ ∧
      SciFloat.val ⟨35, -1⟩ = 7 / 2 := by
  have hi : GenerateFieldData dIntDefault
      = some ⟨"bar", 5, "INT32", Cardinality.singular, some "-1"⟩ := by decide
  have hf : GenerateFieldData dFloatDefault
      = some ⟨"bar", 5, "DOUBLE", Cardinality.singular, some "35e-1"⟩ := by decide
  have h1 := (c5_default_value_fidelity dIntDefault
    ⟨"bar", 5, "INT32", Cardinality.singular, some "-1"⟩ hi).1 (-1) rfl
  have h2 := (c5_default_value_fidelity dFloatDefault
    ⟨"bar", 5, "DOUBLE", Cardinality.singular, some "35e-1"⟩ hf).2 ⟨35, -1⟩ rfl
  have hil : intLiteral (-1) = "-1" := by decide
  have hfl : floatLiteral ⟨35, -1⟩ = "35e-1" := by decide
  refine ⟨hi, ?_, hf, ?_, ?_⟩
  · rw [← hil]
    exact h1.2
  · rw [← hfl]
    exact h2.2.1
  · show (35 : ℚ) * (10 : ℚ) ^ (-1 : ℤ) = 7 / 2
    norm_num

/-! ### Claims about header and source emission -/

/-- Claim C1: the identifier referenced by the output of
`GenerateMembersHeader` equals the identifier defined by the output of
`GenerateSourceDefinition`, and the identifier is a pure function of the
descriptor's name and declaring scope, so both operations produce the
matching name without sharing state. -/
theorem c1_naming_consistency (d : FieldDescriptor) :
    (GenerateMembersHeader d).map HeaderDecl.identifier
        = (GenerateSourceDefinition d).map SourceDef.identifier ∧
      ∀ d' : FieldDescriptor, d.name = d'.name →
        d.declaringScope = d'.declaringScope →
        extensionIdentifier d = extensionIdentifier d' := by
  constructor
  · rfl
  · intro d' hn hs
    unfold extensionIdentifier
    rw [hn, hs]

theorem c1_naming_consistency_witness :
    (GenerateMembersHeader dScalar).map HeaderDecl.identifier
        = (GenerateSourceDefinition dScalar).map SourceDef.identifier ∧
      dScalar.name = dIntDefault.name ∧
      dScalar.declaringScope = dIntDefault.declaringScope ∧
      extensionIdentifier dScalar = extensionIdentifier dIntDefault :=
  ⟨(c1_naming_consistency dScalar).1, rfl, rfl,
    (c1_naming_consistency dScalar).2 dIntDefault rfl rfl⟩

/-- Claim C6: for a singular field and a repeated field of the same
scalar type, `GenerateMembersHeader` emits exactly one declaration each,
and the two declarations differ in shape (single value vs.
collection-shaped type text) while sharing the same base type token. -/
theorem c6_cardinality_dispatch (d₁ d₂ : FieldDescriptor) :
    (GenerateMembersHeader d₁).length = 1 ∧
      (d₁.typeCat.isPrimitiveScalar = true → d₁.typeCat = d₂.typeCat →
        d₁.cardinality = Cardinality.singular →
        d₂.cardinality = Cardinality.repeated →
        ∀ h₁ ∈ GenerateMembersHeader d₁, ∀ h₂ ∈ GenerateMembersHeader d₂,
          declaredTypeText h₁ ≠ declaredTypeText h₂ ∧ h₁.baseType = h₂.baseType) := by
  constructor
  · rfl
  · intro hps hty hc₁ hc₂ h₁ hm₁ h₂ hm₂
    simp only [GenerateMembersHeader, List.mem_singleton] at hm₁ hm₂
    subst hm₁
    subst hm₂
    constructor
    · simp only [declaredTypeText, hc₁, hc₂]
      intro he
      have hlen := congrArg String.length he
      rw [String.length_append, String.length_append] at hlen
      have h5 : ("List<" : String).length = 5 := by decide
      have h6 : (">" : String).length = 1 := by decide
      rw [hty] at hlen
      omega
    · simp [hty]

theorem c6_cardinality_dispatch_witness :
    (GenerateMembersHeader dScalar).length = 1 ∧
      dScalar.typeCat.isPrimitiveScalar = true ∧
      dScalar.typeCat = dRep.typeCat ∧
      dScalar.cardinality = Cardinality.singular ∧
      dRep.cardinality = Cardinality.repeated ∧
      ∀ h₁ ∈ GenerateMembersHeader dScalar, ∀ h₂ ∈ GenerateMembersHeader dRep,
        declaredTypeText h₁ ≠ declaredTypeText h₂ ∧ h₁.baseType = h₂.baseType :=
  ⟨(c6_cardinality_dispatch dScalar dRep).1, rfl, rfl, rfl, rfl,
    (c6_cardinality_dispatch dScalar dRep).2 rfl rfl rfl rfl⟩

/-! ### Claim C8: contract violations are fatal, never recoverable -/

theorem generate_field_data_isSome (d : FieldDescriptor)
    (h : wellFormed d = true) : (GenerateFieldData d).isSome = true := by
  obtain ⟨nm, tg, t, c, v, sc, ex⟩ := d
  cases v <;> cases c <;> cases t <;>
    simp_all [wellFormed, GenerateFieldData, defaultLiteralFor,
      TypeCategory.isIntegerCategory, TypeCategory.isFloatCategory,
      TypeCategory.isEnumCategory]

theorem generate_field_data_none (d : FieldDescriptor)
    (h : wellFormed d = false) : GenerateFieldData d = none := by
  obtain ⟨nm, tg, t, c, v, sc, ex⟩ := d
  cases v <;> cases c <;> cases t <;>
    simp_all [wellFormed, GenerateFieldData, defaultLiteralFor,
      TypeCategory.isIntegerCategory, TypeCategory.isFloatCategory,
      TypeCategory.isEnumCategory]

/-- Claim C8: on a well-formed descriptor no operation signals any
error — every invocation succeeds — while a descriptor describing an
unsupported type/cardinality/default combination makes `GenerateFieldData`
hit the fatal assertion (modelled by `none`) and abort immediately; under
the well-formedness precondition that branch is unreachable. -/
theorem c8_contract_violation_fatal (d : FieldDescriptor) :
    (wellFormed d = true →
      ∀ (op : Op) (s : GenState), (runOp op d s).isSome = true) ∧
    (wellFormed d = false →
      GenerateFieldData d = none ∧
        ∀ s : GenState, runOp Op.opFieldData d s = none) := by
  constructor
  · intro h op s
    cases op <;> simp [runOp]
    exact generate_field_data_isSome d h
  · intro h
    refine ⟨generate_field_data_none d h, fun s => ?_⟩
    simp [runOp, generate_field_data_none d h]

theorem c8_contract_violation_fatal_witness :
    wellFormed dScalar = true ∧
      (runOp Op.opFieldData dScalar ⟨[], []⟩).isSome = true ∧
      wellFormed dBad = false ∧
      GenerateFieldData dBad = none ∧
      runOp Op.opFieldData dBad ⟨[], []⟩ = none :=
  ⟨rfl, (c8_contract_violation_fatal dScalar).1 rfl Op.opFieldData ⟨[], []⟩,
    rfl, ((c8_contract_violation_fatal dBad).2 rfl).1,
    ((c8_contract_violation_fatal dBad).2 rfl).2 ⟨[], []⟩⟩

/-! ### Claim C7: determinism and statelessness of all six operations -/

theorem appendedSink_state_independent (op : Op) (d : FieldDescriptor)
    (s t : GenState) : appendedSink op d s = appendedSink op d t := by
  cases op <;>
    simp [appendedSink, runOp, List.drop_length, List.drop_left]
  cases GenerateFieldData d <;>
    simp [List.drop_left]

/-- Claim C7: every operation of the Extension Lowering Unit is a
deterministic, stateless function of the immutable descriptor — the
output it appends to the sink is identical for any two invocations on the
same descriptor regardless of the caller state reached by any prior
sequence of invocations, and its contribution to the import set is a pure
function of the operation and the descriptor. -/
theorem c7_operations_stateless (op : Op) (d : FieldDescriptor) (s t : GenState) :
    appendedSink op d s = appendedSink op d t ∧
      (∀ s' : GenState, runOp op d s = some s' →
        ∀ x, x ∈ s'.imports ↔ x ∈ s.imports ∨ x ∈ contributedImports op d) ∧
      (∀ (ops : List Op) (s₁ : GenState), runOps ops d t = some s₁ →
        appendedSink op d s₁ = appendedSink op d t) := by
  refine ⟨appendedSink_state_independent op d s t, ?_, ?_⟩
  · intro s' hs' x
    cases op <;>
      simp only [runOp, Option.some.injEq] at hs'
    case opCollectImports =>
      rw [← hs']
      simpa [contributedImports] using mem_collect d s.imports x
    case opMembersHeader =>
      rw [← hs']
      simp [contributedImports]
    case opSourceDefinition =>
      rw [← hs']
      simp [contributedImports]
    case opFieldData =>
      rcases hfd : GenerateFieldData d with _ | fd <;> rw [hfd] at hs'
      · simp at hs'
      · simp only [Option.map_some', Option.some.injEq] at hs'
        rw [← hs']
        simp [contributedImports]
    case opSourceInitializer =>
      rw [← hs']
      simp [contributedImports]
    case opRegistrationCode =>
      rw [← hs']
      simp [contributedImports]
  · intro ops s₁ _
    exact appendedSink_state_independent op d s₁ t

theorem c7_operations_stateless_witness :
    appendedSink Op.opCollectImports dMsg ⟨[], ["A"]⟩
        = appendedSink Op.opCollectImports dMsg ⟨[], []⟩ ∧
      ("BazModule" ∈ (["BazModule"] : List String) ↔
        "BazModule" ∈ ([] : List String) ∨
          "BazModule" ∈ contributedImports Op.opCollectImports dMsg) ∧
      appendedSink Op.opCollectImports dMsg
          ⟨[Artifact.headerArt ⟨"Scope_bar", "Baz", Cardinality.singular⟩], []⟩
        = appendedSink Op.opCollectImports dMsg ⟨[], []⟩ :=
  ⟨(c7_operations_stateless Op.opCollectImports dMsg ⟨[], ["A"]⟩ ⟨[], []⟩).1,
    (c7_operations_stateless Op.opCollectImports dMsg ⟨[], []⟩ ⟨[], []⟩).2.1
      ⟨[], ["BazModule"]⟩ (by decide) "BazModule",
    (c7_operations_stateless Op.opCollectImports dMsg ⟨[], []⟩ ⟨[], []⟩).2.2
      [Op.opMembersHeader]
      ⟨[Artifact.headerArt ⟨"Scope_bar", "Baz", Cardinality.singular⟩], []⟩
      (by decide)⟩

/-! ### Claim C9: registration references only an initialized entry -/

/-- Claim C9: assembling one unit's `GenerateSourceInitializer` output
before its `GenerateRegistrationCode` output and executing both in that
order never references an uninitialized registry entry — execution from
the empty registry succeeds, the registration statement registers exactly
the descriptor object the initializer constructed, and it is keyed by the
extending message's identity and the field's tag number. -/
theorem c9_registration_after_initialization (d : FieldDescriptor)
    (fd : FieldData) (h : GenerateFieldData d = some fd) :
    execProg (assembledProgram d) ⟨[], []⟩
      = some ⟨[(entryName d, fd)], [((d.extendedMessage, d.tag), entryName d)]⟩ := by
  unfold assembledProgram GenerateSourceInitializer GenerateRegistrationCode
  rw [h]
  simp [execProg, execStmt, List.lookup]

theorem c9_registration_after_initialization_witness :
    execProg (assembledProgram dScalar) ⟨[], []⟩
      = some ⟨[(entryName dScalar, ⟨"bar", 5, "INT32", Cardinality.singular, none⟩)],
          [((dScalar.extendedMessage, dScalar.tag), entryName dScalar)]⟩ :=
  c9_registration_after_initialization dScalar
    ⟨"bar", 5, "INT32", Cardinality.singular, none⟩ rfl

end J2ObjC
